import Mathlib

/-!
Verification development for the `alexa-topsites` analyzer
(`src/main.py`, `src/timer.py`).

The program drives a batched, concurrent fetch-and-aggregate scan over a
ranked domain list: `AlexaSiteAnalyzer.run` slices the domain list into
fixed-size batches, fetches every site of a batch (`_process_site`,
`_query_top_sites`), folds each per-site outcome into a mutable
`OverallStats` accumulator (`_analyze_site_output`), and finishes with a
ranking/averaging pass.

This file is a shallow embedding of that code:

* machine/Python numbers are `Nat` / `ℚ` (Python 3 `/` is true division;
  the exact float rounding of CPython is immaterial to the properties
  proved here, which are about which numerator/denominator the code uses);
* the network is an oracle `net : String → FetchEvent` giving, per URL,
  either the response (body text, header names, measured duration) or the
  exception message raised during the fetch;
* HTML-to-text extraction (BeautifulSoup, an external collaborator) is a
  parameter `extract : String → String`;
* exceptions that propagate are `Except String`;
* the completion order of the tasks of one batch is scheduler-dependent in
  the source; the embedding folds outcomes in task-creation order, one
  admissible schedule (the claims proved below are insensitive to the
  order in which the outcomes of one batch arrive);
* wall-clock readings of `EventLoopTimer` are data threaded through the
  model (the per-site fetch duration comes from the oracle; the analysis
  timer's extra reading is modelled as contributing zero, no claim
  mentions durations).
-/

namespace AlexaTopsites

/-- The constants assigned in `AlexaSiteAnalyzer.__init__` that the engine
reads (`TOTAL_SITES_TO_PROCESS = 1000`, `BATCH_SIZE = 50`). They are kept
as parameters so that properties quantify over them. -/
structure Config where
  TOTAL_SITES_TO_PROCESS : Nat
  BATCH_SIZE : Nat
deriving DecidableEq, Repr

/-- The values hard-coded in `__init__`. -/
def defaultConfig : Config := ⟨1000, 50⟩

/-- `AlexaSiteAnalyzer.SiteStats` (attrs class): one per successfully
analyzed site. `word_count_ranking` starts as `None` and is assigned in
the final pass of `run`. -/
structure SiteStats where
  domain_name : String
  duration_in_ms : ℚ
  word_count : Nat
  word_count_ranking : Option Nat
deriving DecidableEq, Repr

/-- `AlexaSiteAnalyzer.HeaderStats` (attrs class, defaults
`site_count=0`, `percentage=0.0`). -/
structure HeaderStats where
  site_count : Nat
  percentage : ℚ
deriving DecidableEq, Repr

/-- `AlexaSiteAnalyzer.ErrorItem` (attrs class). -/
structure ErrorItem where
  domain_name : String
  error_message : Option String
deriving DecidableEq, Repr

/-- `AlexaSiteAnalyzer.OverallStats` (attrs class). `header_stats` is a
Python `dict` keyed by header name; it is embedded as an association list
with the `dict` update semantics (existing key keeps its position, new key
is appended), which matches insertion-ordered CPython dicts. -/
structure OverallStats where
  average_word_count : Option ℚ
  duration_in_ms : Option ℚ
  site_stats : List SiteStats
  header_stats : List (String × HeaderStats)
  error_list : List ErrorItem
deriving DecidableEq, Repr

/-- The accumulator as constructed by `OverallStats()` in `__init__`:
all attrs defaults. -/
def initialOverallStats : OverallStats := ⟨none, none, [], [], []⟩

/-- What the network does for one URL: either the GET completes and the
body decodes (body text, response header names, measured duration of the
wait/read), or some exception (timeout, connection error, decode error)
is raised with the given message. -/
inductive FetchEvent where
  | ok (text : String) (headers : List String) (durationMs : ℚ)
  | exn (message : String)
deriving DecidableEq, Repr

/-- The 5-tuple returned by `_process_site`:
`(url, page_text, response_headers, error_message, duration)`, each of the
last four initialized to `None` and only assigned if reached. -/
structure FetchResult where
  url : String
  page_text : Option String
  response_headers : Option (List String)
  error_message : Option String
  duration : Option ℚ
deriving DecidableEq, Repr

/-- `_query_top_sites` builds the URL as `'http://{}'.format(domain)`. -/
def toUrl (domain : String) : String := "http://" ++ domain

/-- `_process_site`: the whole body sits in a `try`; on success all tuple
slots are filled, on any exception the handler stores `str(e)` and the
other slots keep their `None` initialization. -/
def process_site (url : String) (ev : FetchEvent) : FetchResult :=
  match ev with
  | .ok text headers durationMs =>
      { url := url, page_text := some text, response_headers := some headers
        error_message := none, duration := some durationMs }
  | .exn message =>
      { url := url, page_text := none, response_headers := none
        error_message := some message, duration := none }

/-- Python truthiness of `content` (a `str` or `None`):
`not content` holds for `None` and for the empty string. -/
def falsyText : Option String → Bool
  | none => true
  | some s => s == ""

/-- Python truthiness of `headers` (a multidict or `None`):
`not headers` holds for `None` and for an empty header collection. -/
def falsyHeaders : Option (List String) → Bool
  | none => true
  | some l => l.isEmpty

/-- Python `\s` on the characters relevant here (the embedding uses
Lean's `Char.isWhitespace`; the exotic Unicode-space differences do not
matter for any property below, where word counts are opaque numbers). -/
def isSpaceChar (c : Char) : Bool := c.isWhitespace

/-- Drop leading whitespace characters. -/
def dropLeadingSpace : List Char → List Char
  | [] => []
  | c :: cs => if isSpaceChar c then dropLeadingSpace cs else c :: cs

/-- Python `str.strip()` over the character list. -/
def stripChars (cs : List Char) : List Char :=
  ((dropLeadingSpace ((dropLeadingSpace cs).reverse)).reverse)

/-- Number of maximal non-whitespace runs; `prevSpace` says whether the
previous character was whitespace (or the start of the string). -/
def wordStarts : List Char → Bool → Nat
  | [], _ => 0
  | c :: cs, prevSpace =>
      (if ¬ isSpaceChar c ∧ prevSpace then 1 else 0) + wordStarts cs (isSpaceChar c)

/-- `len(re.split('\s+', text))` for `text = extracted.strip()`
(lines 184-185, 195 of `main.py`): `re.split` on an empty string yields
`['']` (length 1); on a non-empty stripped string it yields exactly the
maximal non-whitespace runs. -/
def wordCount (extracted : String) : Nat :=
  let t := stripChars extracted.data
  if t.isEmpty then 1 else wordStarts t true

/-- Python `dict.get`. -/
def dictGet : List (String × HeaderStats) → String → Option HeaderStats
  | [], _ => none
  | (k', v') :: rest, k => if k' == k then some v' else dictGet rest k

/-- Python `dict[k] = v`: replace in place if the key exists, else append
(insertion order preserved). -/
def dictSet : List (String × HeaderStats) → String → HeaderStats → List (String × HeaderStats)
  | [], k, v => [(k, v)]
  | (k', v') :: rest, k, v =>
      if k' == k then (k, v) :: rest else (k', v') :: dictSet rest k v

/-- The per-header body of the loop in `_analyze_site_output`
(lines 187-193): fetch the entry (a fresh `HeaderStats()` if absent,
`not stats` is true exactly for `None` since attrs objects are truthy),
bump `site_count`, recompute
`percentage = site_count / TOTAL_SITES_TO_PROCESS * 100`, store back. -/
def headerUpdate (cfg : Config) (hs : List (String × HeaderStats)) (header : String) :
    List (String × HeaderStats) :=
  let stats := (dictGet hs header).getD ⟨0, 0⟩
  let sc := stats.site_count + 1
  dictSet hs header ⟨sc, (sc : ℚ) / (cfg.TOTAL_SITES_TO_PROCESS : ℚ) * 100⟩

/-- `_analyze_site_output`, the completion callback for one site's task.
`for header in set(headers)` iterates the deduplicated header names; the
embedding uses first-occurrence order (`dedup`), which only influences the
insertion order of new dict keys, not any count. The analysis stopwatch
adds a wall-clock reading to `scan_duration`; the embedding threads the
fetch duration through unchanged (no claim concerns durations). -/
def analyze_site_output (cfg : Config) (extract : String → String)
    (acc : OverallStats) (res : FetchResult) : OverallStats :=
  if falsyText res.page_text || falsyHeaders res.response_headers then
    { acc with error_list := acc.error_list ++ [⟨res.url, res.error_message⟩] }
  else
    let content := res.page_text.getD ""
    let headers := res.response_headers.getD []
    let words := wordCount (extract content)
    let header_stats := headers.dedup.foldl (fun hs h => headerUpdate cfg hs h) acc.header_stats
    let scan_duration := res.duration.getD 0
    { acc with
        header_stats := header_stats
        site_stats := acc.site_stats ++ [⟨res.url, scan_duration, words, none⟩] }

/-- The `FetchResult`s of one batch, in task-creation order. -/
def siteResults (net : String → FetchEvent) (domains : List String) : List FetchResult :=
  domains.map (fun d => process_site (toUrl d) (net (toUrl d)))

/-- The message of the `ValueError` that `asyncio.wait` raises when its
task set is empty. -/
def asyncioWaitEmptyMsg : String := "ValueError: Set of coroutines/Futures is empty."

/-- `_query_top_sites` for one batch: create one task per domain, attach
`_analyze_site_output` as completion callback, `await asyncio.wait(tasks)`.
`asyncio.wait` raises `ValueError` when `tasks` is empty, which propagates
out of `run_until_complete`; otherwise every callback fires exactly once
and the accumulator has absorbed every outcome of the batch. -/
def query_top_sites (cfg : Config) (extract : String → String) (net : String → FetchEvent)
    (acc : OverallStats) (domains : List String) : Except String OverallStats :=
  if domains.isEmpty then .error asyncioWaitEmptyMsg
  else .ok ((siteResults net domains).foldl (analyze_site_output cfg extract) acc)

/-- Number of loop iterations of the batch loop in `run` (line 83):
`range(0, int(TOTAL_SITES_TO_PROCESS / BATCH_SIZE))` — note `int(N/B)`
truncates, i.e. floor division for these positive constants. -/
def numBatches (cfg : Config) : Nat :=
  cfg.TOTAL_SITES_TO_PROCESS / cfg.BATCH_SIZE

/-- The domain slices fed to `_query_top_sites`, batch by batch
(lines 84-86): `domains[batch_num*B : batch_num*B + B]`. -/
def batchSlices (cfg : Config) (domains : List String) : List (List String) :=
  (List.range (numBatches cfg)).map
    (fun batch_num => (domains.drop (batch_num * cfg.BATCH_SIZE)).take cfg.BATCH_SIZE)

/-- The batch loop of `run`: each batch is driven to completion before the
next one starts; an exception escaping `run_until_complete` (e.g. the
`ValueError` of an empty task set) aborts the loop. -/
def runBatches (cfg : Config) (extract : String → String) (net : String → FetchEvent) :
    List (List String) → OverallStats → Except String OverallStats
  | [], acc => .ok acc
  | slice :: rest, acc =>
      match query_top_sites cfg extract net acc slice with
      | .error e => .error e
      | .ok acc' => runBatches cfg extract net rest acc'

/-- All domains that get a task created for them during a full run. -/
def attemptedDomains (cfg : Config) (domains : List String) : List String :=
  (batchSlices cfg domains).flatten

/-- The comparison used by
`sorted(site_stats, key=lambda x: x.word_count, reverse=True)` on the
enumerated records: `p` may precede `q` iff `q`'s word count is at most
`p`'s. Python's sort is stable, so its output on this key equals the
output of any stable sort inserting later records after ties; the
embedding uses Mathlib's `insertionSort` with this relation, which has
exactly that stable-descending behavior. -/
def rankRel (p q : Nat × SiteStats) : Prop :=
  q.2.word_count ≤ p.2.word_count

instance : DecidableRel rankRel :=
  fun p q => inferInstanceAs (Decidable (q.2.word_count ≤ p.2.word_count))

instance : IsTotal (Nat × SiteStats) rankRel :=
  ⟨fun p q => Nat.le_total q.2.word_count p.2.word_count⟩

instance : IsTrans (Nat × SiteStats) rankRel :=
  ⟨fun _ _ _ h h' => Nat.le_trans h' h⟩

/-- The descending stable sort of the records, carrying each record's
original position in `site_stats` so that the in-place mutation
`site.word_count_ranking = 1 + i` can be expressed functionally. -/
def sortedEnum (l : List SiteStats) : List (Nat × SiteStats) :=
  List.insertionSort rankRel l.enum

/-- The rank the final pass assigns to the record at original position
`j`: one plus its position in the sorted view. -/
def rankOf (sorted : List (Nat × SiteStats)) (j : Nat) : Nat :=
  1 + sorted.findIdx (fun q => q.1 == j)

/-- The exact order produced by the stable descending sort on the
enumerated records: strictly larger word count first, ties in original
position order. (Used to state and prove sortedness and the tie-break.) -/
def SortKeyRel (p q : Nat × SiteStats) : Prop :=
  q.2.word_count < p.2.word_count
    ∨ (q.2.word_count = p.2.word_count ∧ p.1 < q.1)

/-- Lines 89-95 of `run`: sort by descending word count, assign
`word_count_ranking = 1 + i` through the sorted view (the underlying
`site_stats` list keeps its insertion order, its records are mutated in
place), sum the word counts, and set
`average_word_count = word_count_sum / TOTAL_SITES_TO_PROCESS` and
`duration_in_ms = stopwatch.interval * 1000` (the run stopwatch reading
is the parameter `scanMs`). -/
def finalize (cfg : Config) (scanMs : ℚ) (st : OverallStats) : OverallStats :=
  let sorted := sortedEnum st.site_stats
  let word_count_sum : Nat := st.site_stats.foldl (fun s x => s + x.word_count) 0
  { st with
      site_stats := st.site_stats.enum.map
        (fun p => { p.2 with word_count_ranking := some (rankOf sorted p.1) })
      average_word_count := some ((word_count_sum : ℚ) / (cfg.TOTAL_SITES_TO_PROCESS : ℚ))
      duration_in_ms := some scanMs }

/-- `AlexaSiteAnalyzer.run` given the already-obtained domain list: drive
the batch loop, then the finalizing pass, and return the accumulator. An
exception escaping the loop propagates to the caller (no report). -/
def run (cfg : Config) (extract : String → String) (net : String → FetchEvent)
    (domains : List String) (scanMs : ℚ) : Except String OverallStats :=
  (runBatches cfg extract net (batchSlices cfg domains) initialOverallStats).map
    (finalize cfg scanMs)

/-- `true` iff the run returned normally. -/
def isOkResult : Except String OverallStats → Bool
  | .ok _ => true
  | .error _ => false

/-- The report of a normal return (the initial accumulator as an
irrelevant placeholder on the error side). -/
def reportOf : Except String OverallStats → OverallStats
  | .ok r => r
  | .error _ => initialOverallStats

/-- The message of the exception that aborted the run (empty string on a
normal return). -/
def errorMsgOf : Except String OverallStats → String
  | .ok _ => ""
  | .error e => e

/-- `word_count_sum` of the final pass (line 89/93 of `run`): the sum of
`word_count` over the successful site records. -/
def sumWordCounts (l : List SiteStats) : Nat :=
  l.foldl (fun s x => s + x.word_count) 0

/-! ### The domain-list cache (`_get_top_site_domains`, lines 283-301)

Only the filesystem interaction decided by claim C9 is modelled: whether
today's cache file exists, and whether the cache directory (the parent
directory of the cache file, `{app_dir}/temp`) exists. -/

/-- The two filesystem facts `_get_top_site_domains` interacts with. -/
structure CacheFs where
  dirExists : Bool
  cacheFileExists : Bool
deriving DecidableEq, Repr

/-- `_get_top_site_domains`: if today's cache file exists, read it;
otherwise query AWS (the fetched list is the oracle parameter
`fetchedDomains`), then call `os.makedirs(os.path.dirname(cache_filename))`
— which, without `exist_ok=True`, raises `FileExistsError` when the
directory already exists — and write the file. -/
def get_top_site_domains (fs : CacheFs) (cachedDomains fetchedDomains : List String) :
    Except String (List String × CacheFs) :=
  if fs.cacheFileExists then .ok (cachedDomains, fs)
  else if fs.dirExists then .error "FileExistsError"
  else .ok (fetchedDomains, ⟨true, true⟩)

/-! ### Concrete scenarios used by witnesses and counterexamples -/

/-- The three-domain scenario of §8 of the spec: one batch of three. -/
def exCfg : Config := ⟨3, 3⟩

/-- `a.com` answers with three words and two headers, `b.com` with two
words and one header, `c.com` times out. -/
def exNet : String → FetchEvent := fun u =>
  if u == "http://c.com" then .exn "timeout"
  else if u == "http://a.com" then .ok "one two three" ["Server", "Date"] 7
  else .ok "one two" ["Server"] 5

def exDomains : List String := ["a.com", "b.com", "c.com"]

/-- A network where every site answers the same two-word page: every pair
of successful records ties on word count. -/
def tieNet : String → FetchEvent := fun _ => .ok "forty words" ["Server"] 1

def tieCfg : Config := ⟨2, 2⟩

def tieDomains : List String := ["a.com", "b.com"]

/-- Target 4, batch size 2: two batches, and with only three domains the
second batch is the singleton `["c"]`, so three domains are attempted
while `TOTAL_SITES_TO_PROCESS` is 4. -/
def shortCfg : Config := ⟨4, 2⟩

/-- Every site answers one word with the single header `"h"`. -/
def hNet : String → FetchEvent := fun _ => .ok "x" ["h"] 0

def shortDomains : List String := ["a", "b", "c"]

/-- Target 10, batch size 3: `int(10/3) = 3` batches cover only nine of
the ten requested domains. -/
def fracCfg : Config := ⟨10, 3⟩

def fracDomains : List String :=
  ["d0", "d1", "d2", "d3", "d4", "d5", "d6", "d7", "d8", "d9"]

/-! ### Helper lemmas about the fold of outcomes into the accumulator -/

/-- Folding one outcome appends exactly one record, to exactly one of the
two lists. -/
theorem analyze_len (cfg : Config) (ex : String → String) (acc : OverallStats)
    (res : FetchResult) :
    (analyze_site_output cfg ex acc res).site_stats.length
        + (analyze_site_output cfg ex acc res).error_list.length
      = (acc.site_stats.length + acc.error_list.length) + 1 := by
  unfold analyze_site_output
  split <;> simp <;> omega

theorem foldl_analyze_len (cfg : Config) (ex : String → String) (rs : List FetchResult)
    (acc : OverallStats) :
    ((rs.foldl (analyze_site_output cfg ex) acc).site_stats.length
        + (rs.foldl (analyze_site_output cfg ex) acc).error_list.length)
      = acc.site_stats.length + acc.error_list.length + rs.length := by
  induction rs generalizing acc with
  | nil => simp
  | cons r rs ih =>
      simp only [List.foldl_cons, ih, analyze_len, List.length_cons]
      omega

theorem siteResults_length (net : String → FetchEvent) (l : List String) :
    (siteResults net l).length = l.length := by
  simp [siteResults]

/-- Eliminating a successful `_query_top_sites` call: the batch was
nonempty and the accumulator absorbed its outcomes. -/
theorem query_ok_elim {cfg : Config} {ex : String → String} {net : String → FetchEvent}
    {acc acc' : OverallStats} {domains : List String}
    (h : query_top_sites cfg ex net acc domains = .ok acc') :
    domains ≠ [] ∧ acc' = (siteResults net domains).foldl (analyze_site_output cfg ex) acc := by
  unfold query_top_sites at h
  cases domains with
  | nil => simp at h
  | cons d ds =>
      refine ⟨by simp, ?_⟩
      simp only [List.isEmpty_cons, Bool.false_eq_true, if_false] at h
      exact (Except.ok.inj h).symm

/-- A successful batch loop is the fold of all batches' outcomes in
sequence. -/
theorem runBatches_ok_eq {cfg : Config} {ex : String → String} {net : String → FetchEvent} :
    ∀ {slices : List (List String)} {acc st : OverallStats},
      runBatches cfg ex net slices acc = .ok st →
      st = (siteResults net slices.flatten).foldl (analyze_site_output cfg ex) acc := by
  intro slices
  induction slices with
  | nil =>
      intro acc st h
      unfold runBatches at h
      cases h
      simp [siteResults]
  | cons sl rest ih =>
      intro acc st h
      unfold runBatches at h
      cases hq : query_top_sites cfg ex net acc sl with
      | error e => rw [hq] at h; cases h
      | ok acc' =>
          rw [hq] at h
          obtain ⟨-, rfl⟩ := query_ok_elim hq
          rw [ih h, List.flatten_cons]
          simp [siteResults, List.foldl_append]

/-- Conversely, when no batch is empty the loop returns normally with
that fold. -/
theorem runBatches_ok_of (cfg : Config) (ex : String → String) (net : String → FetchEvent) :
    ∀ (slices : List (List String)) (acc : OverallStats), (∀ sl ∈ slices, sl ≠ []) →
      runBatches cfg ex net slices acc
        = .ok ((siteResults net slices.flatten).foldl (analyze_site_output cfg ex) acc) := by
  intro slices
  induction slices with
  | nil => intro acc _; simp [runBatches, siteResults]
  | cons sl rest ih =>
      intro acc hne
      have hsl : sl ≠ [] := hne sl (by simp)
      cases sl with
      | nil => exact absurd rfl hsl
      | cons d ds =>
          rw [runBatches, query_top_sites]
          simp only [List.isEmpty_cons, Bool.false_eq_true, if_false]
          rw [ih _ (fun s hs => hne s (by simp [hs]))]
          simp [siteResults, List.foldl_append]

/-- Eliminating a successful `run`: the report is the finalization of the
fold of every attempted domain's outcome. -/
theorem run_ok_elim {cfg : Config} {ex : String → String} {net : String → FetchEvent}
    {domains : List String} {ms : ℚ} {report : OverallStats}
    (h : run cfg ex net domains ms = .ok report) :
    report = finalize cfg ms
      ((siteResults net (attemptedDomains cfg domains)).foldl (analyze_site_output cfg ex)
        initialOverallStats) := by
  unfold run at h
  cases hb : runBatches cfg ex net (batchSlices cfg domains) initialOverallStats with
  | error e => rw [hb] at h; cases h
  | ok st =>
      rw [hb] at h
      cases h
      unfold attemptedDomains
      rw [← runBatches_ok_eq hb]

theorem run_eq_ok_of_isOk {x : Except String OverallStats} (h : isOkResult x = true) :
    x = .ok (reportOf x) := by
  cases x with
  | ok r => rfl
  | error e => simp [isOkResult] at h

/-! ### Finalize preserves the record lists' shapes -/

theorem finalize_error_list (cfg : Config) (ms : ℚ) (st : OverallStats) :
    (finalize cfg ms st).error_list = st.error_list := rfl

theorem finalize_header_stats (cfg : Config) (ms : ℚ) (st : OverallStats) :
    (finalize cfg ms st).header_stats = st.header_stats := rfl

theorem finalize_site_stats (cfg : Config) (ms : ℚ) (st : OverallStats) :
    (finalize cfg ms st).site_stats = st.site_stats.enum.map
      (fun p => { p.2 with word_count_ranking := some (rankOf (sortedEnum st.site_stats) p.1) }) := rfl

theorem finalize_site_len (cfg : Config) (ms : ℚ) (st : OverallStats) :
    (finalize cfg ms st).site_stats.length = st.site_stats.length := by
  rw [finalize_site_stats]; simp

theorem foldl_add_word_count (l : List SiteStats) :
    ∀ n : Nat, l.foldl (fun s x => s + x.word_count) n
      = n + (l.map (fun x => x.word_count)).sum := by
  induction l with
  | nil => intro n; simp
  | cons x xs ih =>
      intro n
      simp only [List.foldl_cons, List.map_cons, List.sum_cons, ih]
      omega

theorem sumWordCounts_eq_sum (l : List SiteStats) :
    sumWordCounts l = (l.map (fun x => x.word_count)).sum := by
  unfold sumWordCounts
  rw [foldl_add_word_count]
  omega

theorem sumWordCounts_finalize (cfg : Config) (ms : ℚ) (st : OverallStats) :
    sumWordCounts (finalize cfg ms st).site_stats = sumWordCounts st.site_stats := by
  rw [sumWordCounts_eq_sum, sumWordCounts_eq_sum, finalize_site_stats, List.map_map]
  have hf : ((fun x : SiteStats => x.word_count) ∘
      (fun p : Nat × SiteStats =>
        ({ p.2 with word_count_ranking := some (rankOf (sortedEnum st.site_stats) p.1) } : SiteStats)))
      = fun p : Nat × SiteStats => p.2.word_count := by
    funext p; rfl
  rw [hf]
  conv_rhs => rw [← List.enum_map_snd st.site_stats]
  rw [List.map_map]
  have hg : ((fun x : SiteStats => x.word_count) ∘ (Prod.snd : Nat × SiteStats → SiteStats))
      = fun p : Nat × SiteStats => p.2.word_count := by
    funext p; rfl
  rw [hg]

theorem finalize_average (cfg : Config) (ms : ℚ) (st : OverallStats) :
    (finalize cfg ms st).average_word_count
      = some ((sumWordCounts st.site_stats : ℚ) / (cfg.TOTAL_SITES_TO_PROCESS : ℚ)) := rfl

/-! ### The header-statistics invariant -/

/-- Every entry of the header dictionary carries
`percentage = site_count / TOTAL_SITES_TO_PROCESS * 100` — the code's
denominator is the configured target, at every point of the run. -/
def HdrInv (cfg : Config) (hs : List (String × HeaderStats)) : Prop :=
  ∀ k st, dictGet hs k = some st →
    st.percentage = (st.site_count : ℚ) / (cfg.TOTAL_SITES_TO_PROCESS : ℚ) * 100

theorem dictGet_dictSet :
    ∀ (hs : List (String × HeaderStats)) (k k' : String) (v : HeaderStats),
      dictGet (dictSet hs k v) k' = if k' = k then some v else dictGet hs k'
  | [], k, k', v => by
      by_cases h : k' = k
      · subst h; simp [dictSet, dictGet]
      · simp [dictSet, dictGet, h, Ne.symm h]
  | (k0, v0) :: rest, k, k', v => by
      by_cases h0 : k0 = k
      · subst h0
        by_cases h1 : k' = k0
        · subst h1; simp [dictSet, dictGet]
        · simp [dictSet, dictGet, h1, Ne.symm h1]
      · by_cases h1 : k' = k0
        · subst h1
          simp [dictSet, dictGet, h0]
        · have ih := dictGet_dictSet rest k k' v
          simp [dictSet, dictGet, h0, h1, Ne.symm h1, ih]

theorem headerUpdate_inv (cfg : Config) (hs : List (String × HeaderStats)) (h : String)
    (hinv : HdrInv cfg hs) : HdrInv cfg (headerUpdate cfg hs h) := by
  intro k st hget
  unfold headerUpdate at hget
  rw [dictGet_dictSet] at hget
  by_cases hk : k = h
  · rw [if_pos hk] at hget
    cases hget
    rfl
  · rw [if_neg hk] at hget
    exact hinv k st hget

theorem foldl_headerUpdate_inv (cfg : Config) (headers : List String) :
    ∀ hs, HdrInv cfg hs →
      HdrInv cfg (headers.foldl (fun hs h => headerUpdate cfg hs h) hs) := by
  induction headers with
  | nil => intro hs hinv; exact hinv
  | cons h hsrest ih =>
      intro hs hinv
      exact ih _ (headerUpdate_inv cfg hs h hinv)

theorem analyze_inv (cfg : Config) (ex : String → String) (acc : OverallStats)
    (res : FetchResult) (hinv : HdrInv cfg acc.header_stats) :
    HdrInv cfg (analyze_site_output cfg ex acc res).header_stats := by
  unfold analyze_site_output
  split
  · exact hinv
  · exact foldl_headerUpdate_inv cfg _ _ hinv

theorem foldl_analyze_inv (cfg : Config) (ex : String → String) (rs : List FetchResult) :
    ∀ acc, HdrInv cfg acc.header_stats →
      HdrInv cfg ((rs.foldl (analyze_site_output cfg ex) acc).header_stats) := by
  induction rs with
  | nil => intro acc hinv; exact hinv
  | cons r rest ih =>
      intro acc hinv
      exact ih _ (analyze_inv cfg ex acc r hinv)

/-- At the end of any completed run, every header entry's percentage is
`site_count / TOTAL_SITES_TO_PROCESS * 100`. -/
theorem run_header_pct (cfg : Config) (ex : String → String) (net : String → FetchEvent)
    (domains : List String) (ms : ℚ) (report : OverallStats)
    (h : run cfg ex net domains ms = .ok report) (k : String) :
    (dictGet report.header_stats k).map (fun st => st.percentage)
      = (dictGet report.header_stats k).map
          (fun st => (st.site_count : ℚ) / (cfg.TOTAL_SITES_TO_PROCESS : ℚ) * 100) := by
  have hrep := run_ok_elim h
  have hinv : HdrInv cfg report.header_stats := by
    rw [hrep, finalize_header_stats]
    refine foldl_analyze_inv cfg ex _ _ ?_
    intro k st hget
    cases hget
  cases hget : dictGet report.header_stats k with
  | none => rfl
  | some st => simp [hinv k st hget]

/-! ### Claim theorems: C1, C2, C3, C5, C8, C9, C10 -/

/-- C1 (corrected): at finalize time the percentage of every header
present equals `site_count / TOTAL_SITES_TO_PROCESS * 100` — the
denominator is the configured target, not the number of domains actually
attempted. -/
theorem C1_header_percentage_denominator (cfg : Config) (ex : String → String)
    (net : String → FetchEvent) (domains : List String) (ms : ℚ) (report : OverallStats)
    (h : run cfg ex net domains ms = .ok report) (k : String) :
    (dictGet report.header_stats k).map (fun st => st.percentage)
      = (dictGet report.header_stats k).map
          (fun st => (st.site_count : ℚ) / (cfg.TOTAL_SITES_TO_PROCESS : ℚ) * 100) :=
  run_header_pct cfg ex net domains ms report h k

/-- C1 witness: the corrected statement at a concrete completed run. -/
theorem C1_header_percentage_denominator_witness :
    (dictGet (reportOf (run shortCfg id hNet shortDomains 0)).header_stats "h").map
        (fun st => st.percentage)
      = (dictGet (reportOf (run shortCfg id hNet shortDomains 0)).header_stats "h").map
          (fun st => (st.site_count : ℚ) / (shortCfg.TOTAL_SITES_TO_PROCESS : ℚ) * 100) :=
  C1_header_percentage_denominator _ _ _ _ _ _ (run_eq_ok_of_isOk (by decide)) "h"

/-- C1 counterexample: with target 4 and batch size 2, three available
domains are all attempted and all answer with header `"h"`; the stored
percentage is `3/4*100 = 75`, not `site_count / attempted * 100 = 100`
as the claim states. -/
theorem C1_counterexample :
    isOkResult (run shortCfg id hNet shortDomains 0) = true ∧
    (dictGet (reportOf (run shortCfg id hNet shortDomains 0)).header_stats "h").map
        (fun st => st.site_count) = some 3 ∧
    (reportOf (run shortCfg id hNet shortDomains 0)).site_stats.length
        + (reportOf (run shortCfg id hNet shortDomains 0)).error_list.length = 3 ∧
    (dictGet (reportOf (run shortCfg id hNet shortDomains 0)).header_stats "h").map
        (fun st => st.percentage) ≠ some ((3 : ℚ) / (3 : ℚ) * 100) := by
  refine ⟨by decide, by decide, by decide, ?_⟩
  have hok := run_eq_ok_of_isOk (x := run shortCfg id hNet shortDomains 0) (by decide)
  have hpct := run_header_pct _ _ _ _ _ _ hok "h"
  have hsc : (dictGet (reportOf (run shortCfg id hNet shortDomains 0)).header_stats "h").map
      (fun st => st.site_count) = some 3 := by decide
  obtain ⟨st, hget, hsc3⟩ := Option.map_eq_some'.mp hsc
  rw [hget] at hpct ⊢
  simp only [Option.map_some'] at hpct ⊢
  rw [Option.some.injEq] at hpct
  rw [hpct, hsc3]
  intro hcontra
  rw [Option.some.injEq] at hcontra
  norm_num [shortCfg] at hcontra

/-- C2: the final average word count is the sum of the successful
records' word counts divided by the configured total-sites target
(failures contribute zero to the numerator; the denominator is
`TOTAL_SITES_TO_PROCESS`, not the attempted or success count). -/
theorem C2_average_word_count (cfg : Config) (ex : String → String)
    (net : String → FetchEvent) (domains : List String) (ms : ℚ) (report : OverallStats)
    (h : run cfg ex net domains ms = .ok report) :
    report.average_word_count
      = some ((sumWordCounts report.site_stats : ℚ) / (cfg.TOTAL_SITES_TO_PROCESS : ℚ)) := by
  have hrep := run_ok_elim h
  rw [hrep, finalize_average, sumWordCounts_finalize]

/-- C2 witness: the statement at a concrete run (three domains, one
timeout). -/
theorem C2_average_word_count_witness :
    (reportOf (run exCfg id exNet exDomains 0)).average_word_count
      = some ((sumWordCounts (reportOf (run exCfg id exNet exDomains 0)).site_stats : ℚ)
          / (exCfg.TOTAL_SITES_TO_PROCESS : ℚ)) :=
  C2_average_word_count _ _ _ _ _ _ (run_eq_ok_of_isOk (by decide))

/-- C3: after every completed run, the number of successful site records
plus the number of error records equals the number of domains actually
attempted — each outcome folded into the accumulator appends exactly one
record to exactly one of the two lists. -/
theorem C3_record_partition (cfg : Config) (ex : String → String)
    (net : String → FetchEvent) (domains : List String) (ms : ℚ) (report : OverallStats)
    (h : run cfg ex net domains ms = .ok report) :
    report.site_stats.length + report.error_list.length
      = (attemptedDomains cfg domains).length := by
  have hrep := run_ok_elim h
  rw [hrep, finalize_site_len, finalize_error_list, foldl_analyze_len]
  simp [initialOverallStats, siteResults]

/-- C3 witness: at a concrete run with one failure. -/
theorem C3_record_partition_witness :
    (reportOf (run exCfg id exNet exDomains 0)).site_stats.length
        + (reportOf (run exCfg id exNet exDomains 0)).error_list.length
      = (attemptedDomains exCfg exDomains).length :=
  C3_record_partition _ _ _ _ _ _ (run_eq_ok_of_isOk (by decide))

/-- C5 counterexample: with target 10 and batch size 3 the loop runs
`int(10/3) = 3` batches, not `ceil(10/3) = 4`, and a completed run over
ten domains attempts only nine of them. -/
theorem C5_counterexample :
    numBatches fracCfg = 3 ∧ (10 + 3 - 1) / 3 = 4 ∧
    isOkResult (run fracCfg id hNet fracDomains 0) = true ∧
    (reportOf (run fracCfg id hNet fracDomains 0)).site_stats.length
        + (reportOf (run fracCfg id hNet fracDomains 0)).error_list.length = 9 ∧
    ¬ (9 = 10) := by
  refine ⟨by decide, by decide, by decide, by decide, by decide⟩

/-- C5 (corrected): the orchestrator processes exactly
`TOTAL_SITES_TO_PROCESS / BATCH_SIZE` (floor) batches in strict
sequence; when the batch size does not divide the target, the trailing
`N mod B` requested domains are never attempted. With a positive batch
size and at least `floor(N/B) * B` domains available the run completes
having attempted exactly `floor(N/B) * B` domains. -/
theorem C5_floor_batches (cfg : Config) (ex : String → String) (net : String → FetchEvent)
    (domains : List String) (ms : ℚ) (hB : 0 < cfg.BATCH_SIZE)
    (hlen : numBatches cfg * cfg.BATCH_SIZE ≤ domains.length) :
    (batchSlices cfg domains).length = cfg.TOTAL_SITES_TO_PROCESS / cfg.BATCH_SIZE ∧
    ∃ report, run cfg ex net domains ms = Except.ok report ∧
      report.site_stats.length + report.error_list.length
        = numBatches cfg * cfg.BATCH_SIZE := by
  have hslice_len : ∀ sl ∈ batchSlices cfg domains, sl.length = cfg.BATCH_SIZE := by
    intro sl hsl
    unfold batchSlices at hsl
    obtain ⟨b, hb, rfl⟩ := List.mem_map.mp hsl
    have hbn : b < numBatches cfg := List.mem_range.mp hb
    rw [List.length_take, List.length_drop]
    have h1 : (b + 1) * cfg.BATCH_SIZE ≤ numBatches cfg * cfg.BATCH_SIZE :=
      Nat.mul_le_mul_right _ (Nat.succ_le_of_lt hbn)
    rw [Nat.succ_mul] at h1
    omega
  have hne : ∀ sl ∈ batchSlices cfg domains, sl ≠ [] := by
    intro sl hsl hnil
    have := hslice_len sl hsl
    rw [hnil] at this
    simp at this
    omega
  refine ⟨by simp [batchSlices, numBatches], ?_⟩
  refine ⟨finalize cfg ms
      ((siteResults net (batchSlices cfg domains).flatten).foldl
        (analyze_site_output cfg ex) initialOverallStats), ?_, ?_⟩
  · unfold run
    rw [runBatches_ok_of cfg ex net _ _ hne]
    rfl
  · rw [finalize_site_len, finalize_error_list, foldl_analyze_len]
    have hflat : (batchSlices cfg domains).flatten.length = numBatches cfg * cfg.BATCH_SIZE := by
      rw [List.length_flatten]
      have hrep : (batchSlices cfg domains).map List.length
          = List.replicate (numBatches cfg) cfg.BATCH_SIZE := by
        rw [List.eq_replicate]
        constructor
        · simp [batchSlices]
        · intro x hx
          obtain ⟨sl, hsl, rfl⟩ := List.mem_map.mp hx
          exact hslice_len sl hsl
      rw [hrep, List.sum_replicate, smul_eq_mul]
    rw [siteResults_length, hflat]
    simp [initialOverallStats]

/-- C5 witness: the amended statement at the 10/3 configuration. -/
theorem C5_floor_batches_witness :
    0 < fracCfg.BATCH_SIZE ∧
    numBatches fracCfg * fracCfg.BATCH_SIZE ≤ fracDomains.length ∧
    ((batchSlices fracCfg fracDomains).length
        = fracCfg.TOTAL_SITES_TO_PROCESS / fracCfg.BATCH_SIZE ∧
      ∃ report, run fracCfg id hNet fracDomains 0 = Except.ok report ∧
        report.site_stats.length + report.error_list.length
          = numBatches fracCfg * fracCfg.BATCH_SIZE) :=
  ⟨by decide, by decide, C5_floor_batches _ _ _ _ _ (by decide) (by decide)⟩

/-- C8 counterexample: with the default configuration and an empty
domain list the run aborts with the `ValueError` that `asyncio.wait`
raises on an empty task set — inside the first batch iteration, not with
any `SourceUnavailable` condition before batching (no such condition
exists in the code). -/
theorem C8_counterexample :
    isOkResult (run defaultConfig id hNet [] 0) = false ∧
    errorMsgOf (run defaultConfig id hNet [] 0) = asyncioWaitEmptyMsg ∧
    asyncioWaitEmptyMsg ≠ "SourceUnavailable" := by
  refine ⟨by decide, by decide, by decide⟩

/-- C8 (corrected): an empty domain list is not detected up front: the
batch loop starts, and whenever there is at least one batch iteration,
the first `asyncio.wait` on an empty task set raises `ValueError`, which
propagates to the caller; no report is produced, but the failure is that
`ValueError` during batching, not a `SourceUnavailable` condition. -/
theorem C8_empty_domains_valueerror (cfg : Config) (ex : String → String)
    (net : String → FetchEvent) (ms : ℚ) (h : 0 < numBatches cfg) :
    run cfg ex net [] ms = .error asyncioWaitEmptyMsg := by
  unfold run
  have hslices : batchSlices cfg ([] : List String)
      = (List.range (numBatches cfg)).map (fun _ => ([] : List String)) := by
    unfold batchSlices
    simp
  rw [hslices]
  obtain ⟨k, hk⟩ : ∃ k, numBatches cfg = k + 1 := ⟨numBatches cfg - 1, by omega⟩
  rw [hk, List.range_succ_eq_map, List.map_cons]
  rw [runBatches]
  simp [query_top_sites, Except.map]

/-- C8 witness: the amended statement at the default configuration. -/
theorem C8_empty_domains_valueerror_witness :
    0 < numBatches defaultConfig ∧
    run defaultConfig id hNet [] 0 = .error asyncioWaitEmptyMsg :=
  ⟨by decide, C8_empty_domains_valueerror _ _ _ _ (by decide)⟩

/-! ### Membership lemmas for C6 (per-site failure isolation) -/

theorem analyze_site_mem (cfg : Config) (ex : String → String) (acc : OverallStats)
    (res : FetchResult) {s : SiteStats} (h : s ∈ acc.site_stats) :
    s ∈ (analyze_site_output cfg ex acc res).site_stats := by
  unfold analyze_site_output
  split
  · exact h
  · simp only [List.mem_append]
    exact Or.inl h

theorem analyze_err_mem (cfg : Config) (ex : String → String) (acc : OverallStats)
    (res : FetchResult) {e : ErrorItem} (h : e ∈ acc.error_list) :
    e ∈ (analyze_site_output cfg ex acc res).error_list := by
  unfold analyze_site_output
  split
  · simp only [List.mem_append]
    exact Or.inl h
  · exact h

theorem analyze_err_of_falsy (cfg : Config) (ex : String → String) (acc : OverallStats)
    (res : FetchResult)
    (h : (falsyText res.page_text || falsyHeaders res.response_headers) = true) :
    (⟨res.url, res.error_message⟩ : ErrorItem)
      ∈ (analyze_site_output cfg ex acc res).error_list := by
  unfold analyze_site_output
  rw [if_pos h]
  simp

theorem process_site_url (url : String) (ev : FetchEvent) : (process_site url ev).url = url := by
  cases ev <;> rfl

theorem analyze_records (cfg : Config) (ex : String → String) (acc : OverallStats)
    (res : FetchResult) :
    (∃ s ∈ (analyze_site_output cfg ex acc res).site_stats, s.domain_name = res.url)
    ∨ ((⟨res.url, res.error_message⟩ : ErrorItem)
        ∈ (analyze_site_output cfg ex acc res).error_list) := by
  unfold analyze_site_output
  split
  · right; simp
  · left
    refine ⟨_, List.mem_append_right _ (List.mem_singleton_self _), rfl⟩

theorem foldl_analyze_site_mem (cfg : Config) (ex : String → String) (rs : List FetchResult) :
    ∀ (acc : OverallStats) {s : SiteStats}, s ∈ acc.site_stats →
      s ∈ (rs.foldl (analyze_site_output cfg ex) acc).site_stats := by
  induction rs with
  | nil => intro acc s h; exact h
  | cons r rest ih =>
      intro acc s h
      exact ih _ (analyze_site_mem cfg ex acc r h)

theorem foldl_analyze_err_mem (cfg : Config) (ex : String → String) (rs : List FetchResult) :
    ∀ (acc : OverallStats) {e : ErrorItem}, e ∈ acc.error_list →
      e ∈ (rs.foldl (analyze_site_output cfg ex) acc).error_list := by
  induction rs with
  | nil => intro acc e h; exact h
  | cons r rest ih =>
      intro acc e h
      exact ih _ (analyze_err_mem cfg ex acc r h)

theorem foldl_analyze_err_of_falsy (cfg : Config) (ex : String → String) (rs : List FetchResult) :
    ∀ (acc : OverallStats) (r : FetchResult), r ∈ rs →
      (falsyText r.page_text || falsyHeaders r.response_headers) = true →
      (⟨r.url, r.error_message⟩ : ErrorItem)
        ∈ (rs.foldl (analyze_site_output cfg ex) acc).error_list := by
  induction rs with
  | nil => intro acc r h; cases h
  | cons r0 rest ih =>
      intro acc r hr hfalsy
      rcases List.mem_cons.mp hr with rfl | hr'
      · exact foldl_analyze_err_mem cfg ex rest _ (analyze_err_of_falsy cfg ex acc r hfalsy)
      · exact ih _ r hr' hfalsy

theorem foldl_analyze_records (cfg : Config) (ex : String → String) (rs : List FetchResult) :
    ∀ (acc : OverallStats) (r : FetchResult), r ∈ rs →
      (∃ s ∈ (rs.foldl (analyze_site_output cfg ex) acc).site_stats, s.domain_name = r.url)
      ∨ ((⟨r.url, r.error_message⟩ : ErrorItem)
          ∈ (rs.foldl (analyze_site_output cfg ex) acc).error_list) := by
  induction rs with
  | nil => intro acc r h; cases h
  | cons r0 rest ih =>
      intro acc r hr
      rcases List.mem_cons.mp hr with rfl | hr'
      · rcases analyze_records cfg ex acc r with ⟨s, hs, hdom⟩ | herr
        · exact Or.inl ⟨s, foldl_analyze_site_mem cfg ex rest _ hs, hdom⟩
        · exact Or.inr (foldl_analyze_err_mem cfg ex rest _ herr)
      · exact ih _ r hr'

/-- Every successful record survives finalize with its domain intact
(only its ranking field is assigned). -/
theorem finalize_site_domains (cfg : Config) (ms : ℚ) (st : OverallStats) {s : SiteStats}
    (h : s ∈ st.site_stats) :
    ∃ s' ∈ (finalize cfg ms st).site_stats, s'.domain_name = s.domain_name := by
  rw [finalize_site_stats]
  obtain ⟨n, hn⟩ := List.mem_iff_get.mp h
  have hg : st.site_stats[(n : Nat)] = s := by
    rw [← List.get_eq_getElem]; exact hn
  have hmem : ((n : Nat), s) ∈ st.site_stats.enum := by
    rw [List.mem_enum_iff_getElem?, List.getElem?_eq_getElem n.isLt, hg]
  exact ⟨_, List.mem_map_of_mem _ hmem, rfl⟩

/-- C6: a timeout / connection / decode failure on one domain's fetch is
caught and recorded as that domain's error outcome only — and every
attempted domain of every batch, the failing one included, still gets its
outcome recorded in exactly one of the two lists. -/
theorem C6_failure_isolation (cfg : Config) (ex : String → String)
    (net : String → FetchEvent) (domains : List String) (ms : ℚ) (report : OverallStats)
    (d m : String) (h : run cfg ex net domains ms = .ok report)
    (hd : d ∈ attemptedDomains cfg domains) (hm : net (toUrl d) = .exn m) :
    ((⟨toUrl d, some m⟩ : ErrorItem) ∈ report.error_list) ∧
    ∀ d' ∈ attemptedDomains cfg domains,
      (∃ s ∈ report.site_stats, s.domain_name = toUrl d') ∨
      (∃ e ∈ report.error_list, e.domain_name = toUrl d') := by
  have hrep := run_ok_elim h
  constructor
  · have hres : process_site (toUrl d) (FetchEvent.exn m)
        ∈ siteResults net (attemptedDomains cfg domains) := by
      have h1 := List.mem_map_of_mem (fun d => process_site (toUrl d) (net (toUrl d))) hd
      have h2 : process_site (toUrl d) (net (toUrl d))
          ∈ siteResults net (attemptedDomains cfg domains) := h1
      rw [hm] at h2
      exact h2
    have hfalsy : (falsyText (process_site (toUrl d) (FetchEvent.exn m)).page_text
        || falsyHeaders (process_site (toUrl d) (FetchEvent.exn m)).response_headers)
          = true := rfl
    have hmem := foldl_analyze_err_of_falsy cfg ex _ initialOverallStats _ hres hfalsy
    rw [hrep, finalize_error_list]
    exact hmem
  · intro d' hd'
    have hres' : process_site (toUrl d') (net (toUrl d'))
        ∈ siteResults net (attemptedDomains cfg domains) :=
      List.mem_map_of_mem _ hd'
    rcases foldl_analyze_records cfg ex _ initialOverallStats _ hres' with ⟨s, hs, hdom⟩ | herr
    · left
      obtain ⟨s', hs', hdom'⟩ := finalize_site_domains cfg ms _ hs
      rw [hrep]
      refine ⟨s', hs', ?_⟩
      rw [hdom', hdom, process_site_url]
    · right
      rw [hrep, finalize_error_list]
      refine ⟨_, herr, ?_⟩
      exact process_site_url _ _

/-- C6 witness: the §8 scenario — `c.com` times out, `a.com` and `b.com`
are in the same batch, everyone's outcome is recorded. -/
theorem C6_failure_isolation_witness :
    ((⟨toUrl "c.com", some "timeout"⟩ : ErrorItem)
        ∈ (reportOf (run exCfg id exNet exDomains 0)).error_list) ∧
    ∀ d' ∈ attemptedDomains exCfg exDomains,
      (∃ s ∈ (reportOf (run exCfg id exNet exDomains 0)).site_stats,
        s.domain_name = toUrl d') ∨
      (∃ e ∈ (reportOf (run exCfg id exNet exDomains 0)).error_list,
        e.domain_name = toUrl d') :=
  C6_failure_isolation _ _ _ _ _ _ "c.com" "timeout"
    (run_eq_ok_of_isOk (by decide)) (by decide) (by decide)

/-- C9 (the code's actual behavior at the failing input): on a cache
miss with the cache directory already present — the normal state on any
day after the first successful run — `os.makedirs` is called without
`exist_ok` and raises `FileExistsError`, so the cache write does NOT
succeed; the claim (and the code's own caching intent) requires the
directory to be created only when absent. -/
theorem C9_makedirs_raises_when_dir_exists :
    get_top_site_domains ⟨true, false⟩ ["cached.com"] ["fetched.com"]
      = .error "FileExistsError" := rfl

/-- C10: a fetch that completes without raising but whose decoded body is
empty (or whose header collection is falsy) is recorded as an
`ErrorItem` whose `error_message` is `None`, not as a successful site
record. -/
theorem C10_empty_body_recorded_as_error (cfg : Config) (ex : String → String)
    (acc : OverallStats) (url text : String) (headers : List String) (d : ℚ)
    (h : text = "" ∨ headers = []) :
    analyze_site_output cfg ex acc (process_site url (.ok text headers d))
      = { acc with error_list := acc.error_list ++ [⟨url, none⟩] } := by
  unfold process_site analyze_site_output
  cases h with
  | inl h => subst h; simp [falsyText]
  | inr h => subst h; simp [falsyHeaders]

/-! ### The stable descending sort: order, permutation and positions
(machinery for C4 and C7) -/

theorem orderedInsert_pairwise_key (a : Nat × SiteStats) :
    ∀ (s : List (Nat × SiteStats)), (∀ y ∈ s, a.1 < y.1) → List.Pairwise SortKeyRel s →
      List.Pairwise SortKeyRel (List.orderedInsert rankRel a s)
  | [], _, _ => by simp [List.orderedInsert]
  | y :: ys, hPa, hs => by
      rw [List.orderedInsert]
      by_cases hr : rankRel a y
      · rw [if_pos hr]
        refine List.Pairwise.cons ?_ hs
        intro z hz
        rcases List.mem_cons.mp hz with rfl | hzys
        · rcases Nat.lt_or_ge z.2.word_count a.2.word_count with hlt | hge
          · exact Or.inl hlt
          · exact Or.inr ⟨Nat.le_antisymm hr hge, hPa z (List.mem_cons_self _ _)⟩
        · have hyz := List.rel_of_pairwise_cons hs hzys
          rcases hyz with hlt | ⟨heq, _⟩
          · exact Or.inl (Nat.lt_of_lt_of_le hlt hr)
          · rcases Nat.lt_or_ge z.2.word_count a.2.word_count with h2 | h2
            · exact Or.inl h2
            · refine Or.inr ⟨Nat.le_antisymm ?_ h2, hPa z (List.mem_cons_of_mem _ hzys)⟩
              rw [heq]
              exact hr
      · rw [if_neg hr]
        have hPa' : ∀ z ∈ ys, a.1 < z.1 := fun z hz => hPa z (List.mem_cons_of_mem _ hz)
        have hys := (List.pairwise_cons.mp hs).2
        refine List.Pairwise.cons ?_ (orderedInsert_pairwise_key a ys hPa' hys)
        intro z hz
        rcases (List.mem_orderedInsert rankRel).mp hz with rfl | hzys
        · exact Or.inl (Nat.lt_of_not_le hr)
        · exact List.rel_of_pairwise_cons hs hzys

theorem insertionSort_pairwise_key :
    ∀ (l : List (Nat × SiteStats)), List.Pairwise (fun p q => p.1 < q.1) l →
      List.Pairwise SortKeyRel (List.insertionSort rankRel l)
  | [], _ => by simp [List.insertionSort]
  | a :: t, h => by
      rw [List.insertionSort]
      obtain ⟨ha, ht⟩ := List.pairwise_cons.mp h
      refine orderedInsert_pairwise_key a _ ?_ (insertionSort_pairwise_key t ht)
      intro y hy
      exact ha y ((List.mem_insertionSort rankRel).mp hy)

/-- The sorted view is ordered by descending word count with ties in
original position order. -/
theorem sortedEnum_pairwise (l : List SiteStats) :
    List.Pairwise SortKeyRel (sortedEnum l) := by
  unfold sortedEnum
  refine insertionSort_pairwise_key _ ?_
  have h1 : List.Pairwise (· < ·) (l.enum.map Prod.fst) := by
    rw [List.enum_map_fst]
    exact List.pairwise_lt_range _
  exact List.pairwise_map.mp h1

theorem sortedEnum_perm (l : List SiteStats) : (sortedEnum l).Perm l.enum :=
  List.perm_insertionSort _ _

theorem sortedEnum_length (l : List SiteStats) : (sortedEnum l).length = l.length := by
  rw [sortedEnum, List.length_insertionSort, List.enum_length]

theorem sortedEnum_keys_perm (l : List SiteStats) :
    ((sortedEnum l).map Prod.fst).Perm (List.range l.length) := by
  have h1 := (sortedEnum_perm l).map Prod.fst
  rwa [List.enum_map_fst] at h1

theorem sortedEnum_keys_nodup (l : List SiteStats) :
    ((sortedEnum l).map Prod.fst).Nodup :=
  (sortedEnum_keys_perm l).symm.nodup (List.nodup_range _)

/-- In a list of pairs with pairwise-distinct keys, the first index whose
key matches the key of position `p` is `p` itself. -/
theorem findIdx_key_get :
    ∀ (s : List (Nat × SiteStats)), (s.map Prod.fst).Nodup →
      ∀ (p : Nat) (hp : p < s.length),
        s.findIdx (fun q => q.1 == (s.get ⟨p, hp⟩).1) = p
  | [], _, p, hp => absurd hp (by simp)
  | x :: t, hnd, 0, hp => by
      rw [List.findIdx_cons]
      simp
  | x :: t, hnd, p + 1, hp => by
      have hp' : p < t.length := by
        have := hp
        simp only [List.length_cons] at this
        omega
      have hnd' : (t.map Prod.fst).Nodup := by
        rw [List.map_cons, List.nodup_cons] at hnd
        exact hnd.2
      have hxt : x.1 ∉ t.map Prod.fst := by
        rw [List.map_cons, List.nodup_cons] at hnd
        exact hnd.1
      have hget : (x :: t).get ⟨p + 1, hp⟩ = t.get ⟨p, hp'⟩ := List.get_cons_succ
      rw [hget, List.findIdx_cons]
      have hne : (x.1 == (t.get ⟨p, hp'⟩).1) = false := by
        rw [beq_eq_false_iff_ne]
        intro hc
        apply hxt
        rw [hc]
        exact List.mem_map_of_mem Prod.fst (List.get_mem t p hp')
      rw [hne]
      simp only [cond_false]
      rw [findIdx_key_get t hnd' p hp']

/-- For every original position `j`, the sorted view contains the record
`(j, l.get j)` at position `findIdx (·.1 == j)`. -/
theorem sortedEnum_get_findIdx (l : List SiteStats) (j : Nat) (hj : j < l.length) :
    ∃ hi : (sortedEnum l).findIdx (fun q => q.1 == j) < (sortedEnum l).length,
      (sortedEnum l).get ⟨(sortedEnum l).findIdx (fun q => q.1 == j), hi⟩
        = (j, l.get ⟨j, hj⟩) := by
  have hjk : j ∈ (sortedEnum l).map Prod.fst :=
    (sortedEnum_keys_perm l).mem_iff.mpr (List.mem_range.mpr hj)
  obtain ⟨q, hq, hq1⟩ := List.mem_map.mp hjk
  have hex : ∃ x ∈ sortedEnum l, (fun q => q.1 == j) x = true := ⟨q, hq, by simp [hq1]⟩
  have hi := List.findIdx_lt_length_of_exists hex
  refine ⟨hi, ?_⟩
  have hkey : ((sortedEnum l).get ⟨(sortedEnum l).findIdx (fun q => q.1 == j), hi⟩).1 = j := by
    have h2 := List.findIdx_get (w := hi)
    simpa using h2
  have hmem : (sortedEnum l).get ⟨(sortedEnum l).findIdx (fun q => q.1 == j), hi⟩ ∈ l.enum :=
    (sortedEnum_perm l).subset (List.get_mem _ _ hi)
  have hsnd := List.mem_enum_iff_getElem?.mp hmem
  rw [hkey] at hsnd
  rw [List.getElem?_eq_getElem hj] at hsnd
  have h3 : ((sortedEnum l).get
      ⟨(sortedEnum l).findIdx (fun q => q.1 == j), hi⟩).2 = l.get ⟨j, hj⟩ := by
    rw [(Option.some.inj hsnd).symm]
    exact (List.get_eq_getElem l ⟨j, hj⟩).symm
  exact Prod.ext hkey h3

/-- Every element of `enum` is the record at its own first component. -/
theorem mem_enum_elim {l : List SiteStats} {p : Nat × SiteStats} (h : p ∈ l.enum) :
    ∃ hj : p.1 < l.length, p.2 = l.get ⟨p.1, hj⟩ := by
  have h1 := List.mem_enum_iff_getElem?.mp h
  have hlt : p.1 < l.length := by
    by_contra hc
    rw [List.getElem?_eq_none (by omega)] at h1
    cases h1
  refine ⟨hlt, ?_⟩
  rw [List.getElem?_eq_getElem hlt] at h1
  rw [← Option.some.inj h1]
  exact (List.get_eq_getElem l ⟨p.1, hlt⟩).symm

/-- The positions assigned by `rankOf` to the original indices form a
permutation of `1 .. K`. -/
theorem rankOf_map_perm (l : List SiteStats) :
    ((List.range l.length).map (fun j => rankOf (sortedEnum l) j)).Perm
      ((List.range l.length).map (fun i => 1 + i)) := by
  have hA : (sortedEnum l).map (fun q => (sortedEnum l).findIdx (fun r => r.1 == q.1))
      = List.range l.length := by
    apply List.ext_get
    · simp [sortedEnum_length]
    · intro n h1 h2
      rw [List.get_map, List.get_range]
      exact findIdx_key_get _ (sortedEnum_keys_nodup l) n
        (by simpa [sortedEnum_length] using h1)
  have hB := (sortedEnum_keys_perm l).map
    (fun j => (sortedEnum l).findIdx (fun r => r.1 == j))
  rw [List.map_map] at hB
  have hfun : ((fun j => (sortedEnum l).findIdx (fun r => r.1 == j)) ∘ Prod.fst)
      = (fun q : Nat × SiteStats => (sortedEnum l).findIdx (fun r => r.1 == q.1)) := rfl
  rw [hfun, hA] at hB
  have hC := hB.symm.map (fun n => 1 + n)
  rw [List.map_map] at hC
  exact hC

/-- The rankings of the final report, in original record order. -/
theorem finalize_ranks_map (cfg : Config) (ms : ℚ) (st : OverallStats) :
    (finalize cfg ms st).site_stats.map (fun s => s.word_count_ranking)
      = (List.range st.site_stats.length).map
          (fun j => some (rankOf (sortedEnum st.site_stats) j)) := by
  rw [finalize_site_stats, List.map_map]
  have h1 : ((fun s : SiteStats => s.word_count_ranking) ∘
      (fun p : Nat × SiteStats =>
        ({ p.2 with word_count_ranking := some (rankOf (sortedEnum st.site_stats) p.1) }
          : SiteStats)))
      = ((fun j => some (rankOf (sortedEnum st.site_stats) j)) ∘ Prod.fst) := rfl
  rw [h1, ← List.map_map, List.enum_map_fst]

/-- The record of the final report at position `i` is the record that was
at position `i` all along, with its ranking assigned. -/
theorem finalize_get (cfg : Config) (ms : ℚ) (st : OverallStats) (i : Nat)
    (hi : i < (finalize cfg ms st).site_stats.length) :
    ∃ hi' : i < st.site_stats.length,
      (finalize cfg ms st).site_stats.get ⟨i, hi⟩
        = { st.site_stats.get ⟨i, hi'⟩ with
              word_count_ranking := some (rankOf (sortedEnum st.site_stats) i) } := by
  have hi' : i < st.site_stats.length := by
    rw [finalize_site_len] at hi
    exact hi
  refine ⟨hi', ?_⟩
  rw [List.get_of_eq (finalize_site_stats cfg ms st) ⟨i, hi⟩]
  rw [List.get_map]
  have he : i < st.site_stats.enum.length := by
    rw [List.enum_length]
    exact hi'
  have h2 : st.site_stats.enum.get ⟨i, he⟩ = (i, st.site_stats.get ⟨i, hi'⟩) := by
    rw [List.get_enum]
    rfl
  rw [show st.site_stats.enum.get ⟨(⟨i, hi⟩ : Fin _).1, by simpa using he⟩
      = st.site_stats.enum.get ⟨i, he⟩ from rfl, h2]

/-- The rankings of a finalized report are a permutation of `1 .. K`. -/
theorem finalize_ranks_perm (cfg : Config) (ms : ℚ) (st : OverallStats) :
    ((finalize cfg ms st).site_stats.map (fun s => s.word_count_ranking)).Perm
      ((List.range (finalize cfg ms st).site_stats.length).map (fun i => some (1 + i))) := by
  rw [finalize_ranks_map, finalize_site_len]
  have h1 := (rankOf_map_perm st.site_stats).map some
  rw [List.map_map, List.map_map] at h1
  exact h1

/-- In a finalized report, the record ranked `1 + i` has at most the word
count of the record ranked `i`. -/
theorem finalize_rank_antitone (cfg : Config) (ms : ℚ) (st : OverallStats) :
    ∀ s ∈ (finalize cfg ms st).site_stats, ∀ t ∈ (finalize cfg ms st).site_stats, ∀ i : Nat,
      s.word_count_ranking = some i → t.word_count_ranking = some (1 + i) →
      t.word_count ≤ s.word_count := by
  intro s hs t ht i hsi hti
  rw [finalize_site_stats] at hs ht
  obtain ⟨ps, hps, hfs⟩ := List.mem_map.mp hs
  obtain ⟨pt, hpt, hft⟩ := List.mem_map.mp ht
  obtain ⟨hjs, hs2⟩ := mem_enum_elim hps
  obtain ⟨hjt, ht2⟩ := mem_enum_elim hpt
  have hrs : s.word_count_ranking = some (rankOf (sortedEnum st.site_stats) ps.1) := by
    rw [← hfs]
  have hrt : t.word_count_ranking = some (rankOf (sortedEnum st.site_stats) pt.1) := by
    rw [← hft]
  rw [hrs] at hsi
  rw [hrt] at hti
  have hi1 := Option.some.inj hsi
  have hi2 := Option.some.inj hti
  unfold rankOf at hi1 hi2
  obtain ⟨his, hgs⟩ := sortedEnum_get_findIdx st.site_stats ps.1 hjs
  obtain ⟨hit, hgt⟩ := sortedEnum_get_findIdx st.site_stats pt.1 hjt
  have hPW := sortedEnum_pairwise st.site_stats
  have hlt : (sortedEnum st.site_stats).findIdx (fun q => q.1 == ps.1)
      < (sortedEnum st.site_stats).findIdx (fun q => q.1 == pt.1) := by omega
  have hrel := List.pairwise_iff_get.mp hPW ⟨_, his⟩ ⟨_, hit⟩ (Fin.mk_lt_mk.mpr hlt)
  rw [hgs, hgt] at hrel
  have hws : s.word_count = (st.site_stats.get ⟨ps.1, hjs⟩).word_count := by
    rw [← hfs]
    show ps.2.word_count = _
    rw [hs2]
  have hwt : t.word_count = (st.site_stats.get ⟨pt.1, hjt⟩).word_count := by
    rw [← hft]
    show pt.2.word_count = _
    rw [ht2]
  rcases hrel with h2 | ⟨h2, _⟩
  · rw [hws, hwt]
    exact Nat.le_of_lt h2
  · rw [hws, hwt]
    exact Nat.le_of_eq h2

/-- C4: after finalize, the ranks over the K successful records are the
permutation `{1, …, K}` (no duplicates or gaps) and the record ranked
`i + 1` never exceeds the word count of the record ranked `i`. -/
theorem C4_ranking (cfg : Config) (ex : String → String) (net : String → FetchEvent)
    (domains : List String) (ms : ℚ) (report : OverallStats)
    (h : run cfg ex net domains ms = .ok report) :
    ((report.site_stats.map (fun s => s.word_count_ranking)).Perm
        ((List.range report.site_stats.length).map (fun i => some (1 + i))))
    ∧ ∀ s ∈ report.site_stats, ∀ t ∈ report.site_stats, ∀ i : Nat,
        s.word_count_ranking = some i → t.word_count_ranking = some (1 + i) →
        t.word_count ≤ s.word_count := by
  have hrep := run_ok_elim h
  rw [hrep]
  exact ⟨finalize_ranks_perm cfg ms _, finalize_rank_antitone cfg ms _⟩

/-- C4 witness: the statement at a concrete run (three domains, one
timeout, two ranked records). -/
theorem C4_ranking_witness :
    (((reportOf (run exCfg id exNet exDomains 0)).site_stats.map
        (fun s => s.word_count_ranking)).Perm
      ((List.range (reportOf (run exCfg id exNet exDomains 0)).site_stats.length).map
        (fun i => some (1 + i))))
    ∧ ∀ s ∈ (reportOf (run exCfg id exNet exDomains 0)).site_stats,
        ∀ t ∈ (reportOf (run exCfg id exNet exDomains 0)).site_stats, ∀ i : Nat,
        s.word_count_ranking = some i → t.word_count_ranking = some (1 + i) →
        t.word_count ≤ s.word_count :=
  C4_ranking _ _ _ _ _ _ (run_eq_ok_of_isOk (by decide))

/-- C7: the tie-break of the ranking pass is fixed and deterministic —
Python's `sorted` is stable, so of two records with equal word count the
one recorded first (first-seen order) gets the smaller rank; identical
recorded outcomes in identical order therefore always yield identical
rank assignments (the embedding of the run is a function of its
inputs). -/
theorem C7_stable_tie_break (cfg : Config) (ex : String → String) (net : String → FetchEvent)
    (domains : List String) (ms : ℚ) (report : OverallStats)
    (h : run cfg ex net domains ms = .ok report)
    (i j : Nat) (hi : i < report.site_stats.length) (hj : j < report.site_stats.length)
    (hij : i < j)
    (hwc : (report.site_stats.get ⟨i, hi⟩).word_count
        = (report.site_stats.get ⟨j, hj⟩).word_count) :
    ∃ ri rj, (report.site_stats.get ⟨i, hi⟩).word_count_ranking = some ri ∧
      (report.site_stats.get ⟨j, hj⟩).word_count_ranking = some rj ∧ ri < rj := by
  have hrep := run_ok_elim h
  subst hrep
  set ST := (siteResults net (attemptedDomains cfg domains)).foldl
    (analyze_site_output cfg ex) initialOverallStats with hST
  obtain ⟨hi', hgi⟩ := finalize_get cfg ms ST i hi
  obtain ⟨hj', hgj⟩ := finalize_get cfg ms ST j hj
  refine ⟨rankOf (sortedEnum ST.site_stats) i, rankOf (sortedEnum ST.site_stats) j,
    ?_, ?_, ?_⟩
  · rw [hgi]
  · rw [hgj]
  · obtain ⟨hpi, hgi2⟩ := sortedEnum_get_findIdx ST.site_stats i hi'
    obtain ⟨hpj, hgj2⟩ := sortedEnum_get_findIdx ST.site_stats j hj'
    have hwc' : (ST.site_stats.get ⟨i, hi'⟩).word_count
        = (ST.site_stats.get ⟨j, hj'⟩).word_count := by
      rw [hgi, hgj] at hwc
      exact hwc
    have hne : (sortedEnum ST.site_stats).findIdx (fun q => q.1 == i)
        ≠ (sortedEnum ST.site_stats).findIdx (fun q => q.1 == j) := by
      intro hc
      have h1 : ((i : Nat), ST.site_stats.get ⟨i, hi'⟩)
          = ((j : Nat), ST.site_stats.get ⟨j, hj'⟩) := by
        rw [← hgi2, ← hgj2]
        exact congrArg _ (Fin.ext hc)
      have h2 : i = j := congrArg Prod.fst h1
      omega
    rcases Nat.lt_or_ge ((sortedEnum ST.site_stats).findIdx (fun q => q.1 == i))
        ((sortedEnum ST.site_stats).findIdx (fun q => q.1 == j)) with hlt | hge
    · unfold rankOf
      omega
    · exfalso
      have hlt' : (sortedEnum ST.site_stats).findIdx (fun q => q.1 == j)
          < (sortedEnum ST.site_stats).findIdx (fun q => q.1 == i) := by omega
      have hrel := List.pairwise_iff_get.mp (sortedEnum_pairwise ST.site_stats)
        ⟨_, hpj⟩ ⟨_, hpi⟩ (Fin.mk_lt_mk.mpr hlt')
      rw [hgj2, hgi2] at hrel
      rcases hrel with h2 | ⟨-, h3⟩
      · rw [hwc'] at h2
        exact Nat.lt_irrefl _ h2
      · omega

/-- C7 witness: two domains tie with two words each; the first-seen one
gets the smaller rank. -/
theorem C7_stable_tie_break_witness :
    ∃ ri rj,
      ((reportOf (run tieCfg id tieNet tieDomains 0)).site_stats.get
          ⟨0, by decide⟩).word_count_ranking = some ri ∧
      ((reportOf (run tieCfg id tieNet tieDomains 0)).site_stats.get
          ⟨1, by decide⟩).word_count_ranking = some rj ∧ ri < rj :=
  C7_stable_tie_break _ _ _ _ _ _ (run_eq_ok_of_isOk (by decide)) 0 1
    (by decide) (by decide) (by decide) (by decide)

/-- C10 witness: an empty body with nonempty headers at a concrete
accumulator. -/
theorem C10_empty_body_recorded_as_error_witness :
    analyze_site_output defaultConfig id initialOverallStats
        (process_site "http://a.com" (.ok "" ["Server"] 5))
      = { initialOverallStats with
            error_list := initialOverallStats.error_list ++ [⟨"http://a.com", none⟩] } :=
  C10_empty_body_recorded_as_error _ _ _ _ _ _ _ (Or.inl rfl)

end AlexaTopsites
